import Mathlib

/-!
# GenTemplate: verification of the section-splitting / assembly / refinement pipeline

Shallow embedding of the core logic of the GenTemplate repository
(`src/GenTemp/app.py` and `src/GenTemp/gemini_api.py`):

* Python string primitives used by the code: `str.strip()`, `str.strip("\n")`,
  `sep.join(...)`, decimal rendering of integers (for the f-string keys
  `f"section_{i}"`).
* the template section splitter `re.split(r'(?=\bSECTION\b)', template_text)`
  followed by `[s.strip() for s in sections if s.strip()]`;
* the per-session mapping `report_sections` (a Python `dict` modelled as an
  insertion-ordered association list with Python's update-in-place-or-append
  assignment semantics);
* the report assembly
  `"\n\n".join(report_sections[f"section_{i}"] for i in range(1, total_sections + 1))`;
* the Generate Report and Regenerate Selected Section handlers, with the
  remote generation call abstracted as an oracle;
* `gemini_api.get_gemini_client` / `gemini_api.generate_response` in explicit
  exception-passing style (`Except`), with the remote SDK behaviour supplied
  by an environment record;
* the timestamped snapshot files `report_<ts>.txt` / `report_updated_<ts>.txt`
  written with `Path.write_text` (create or truncate) into the outputs
  directory.
-/

namespace GenTemplate

/-! ## Python string primitives -/

/-- The ASCII whitespace characters recognised by Python `str.strip()` with no
argument (and by `str.isspace` on ASCII input). -/
def isPySpace (c : Char) : Bool :=
  c = ' ' || c = '\t' || c = '\n' || c = '\r' || c = '\x0b' || c = '\x0c'

/-- `str.strip(chars)` on the character-list level: drop the longest run of
characters satisfying `p` from both ends. -/
def stripList (p : Char → Bool) (l : List Char) : List Char :=
  ((l.dropWhile p).reverse.dropWhile p).reverse

/-- Python `s.strip()`: strip whitespace from both ends. -/
def pyStrip (s : String) : String :=
  ⟨stripList isPySpace s.data⟩

/-- Python `s.strip("\n")`, applied by `app.py` to every stored section text. -/
def pyStripNL (s : String) : String :=
  ⟨stripList (fun c => c = '\n') s.data⟩

/-- A string whose characters are all whitespace (equivalently, a string that
is falsy in Python after `strip()`). -/
def wsOnly (s : String) : Bool :=
  s.data.all isPySpace

/-- Python `sep.join(l)`. -/
def pyJoin (sep : String) : List String → String
  | [] => ""
  | [s] => s
  | s :: t :: rest => s ++ sep ++ pyJoin sep (t :: rest)

/-! ### Decimal rendering of naturals (Python `str(i)` inside f-strings) -/

/-- The decimal digit character for `d % 10`. -/
def decChar (d : Nat) : Char :=
  match d with
  | 0 => '0' | 1 => '1' | 2 => '2' | 3 => '3' | 4 => '4'
  | 5 => '5' | 6 => '6' | 7 => '7' | 8 => '8' | _ => '9'

/-- Numeric value of a decimal digit character. -/
def decVal (c : Char) : Nat :=
  match c with
  | '0' => 0 | '1' => 1 | '2' => 2 | '3' => 3 | '4' => 4
  | '5' => 5 | '6' => 6 | '7' => 7 | '8' => 8 | _ => 9

/-- Fuelled big-endian decimal digit expansion; `fuel > n` is always enough. -/
def decDigitsF : Nat → Nat → List Char
  | 0, _ => []
  | fuel + 1, n =>
    if n < 10 then [decChar n]
    else decDigitsF fuel (n / 10) ++ [decChar (n % 10)]

/-- Big-endian decimal digits of `n`, matching Python's `str(n)` for `n : Nat`. -/
def decDigits (n : Nat) : List Char :=
  decDigitsF (n + 1) n

/-- Python `str(n)` for a natural number. -/
def natStr (n : Nat) : String :=
  ⟨decDigits n⟩

/-- Decimal evaluation, the left inverse of `decDigits`. -/
def decEval (l : List Char) : Nat :=
  l.foldl (fun a c => 10 * a + decVal c) 0

theorem decVal_decChar {d : Nat} (h : d < 10) : decVal (decChar d) = d := by
  interval_cases d <;> rfl

theorem decEval_append_one (l : List Char) (c : Char) :
    decEval (l ++ [c]) = 10 * decEval l + decVal c := by
  simp [decEval, List.foldl_append]

theorem decEval_decDigitsF : ∀ fuel n, n < fuel → decEval (decDigitsF fuel n) = n := by
  intro fuel
  induction fuel with
  | zero => intro n h; omega
  | succ f ih =>
    intro n h
    by_cases h10 : n < 10
    · simp only [decDigitsF, if_pos h10]
      simpa [decEval] using decVal_decChar h10
    · simp only [decDigitsF, if_neg h10]
      rw [decEval_append_one, ih (n / 10) (by omega), decVal_decChar (by omega)]
      omega

theorem decEval_decDigits (n : Nat) : decEval (decDigits n) = n :=
  decEval_decDigitsF (n + 1) n (Nat.lt_succ_self n)

theorem decDigits_injective : Function.Injective decDigits := by
  intro a b h
  have := congrArg decEval h
  rwa [decEval_decDigits, decEval_decDigits] at this

theorem natStr_injective : Function.Injective natStr := by
  intro a b h
  exact decDigits_injective (congrArg String.data h)

/-! ## Python `dict` model

`report_sections` is a Python `dict` keyed by strings.  A `dict` is an
insertion-ordered association list; assignment `d[k] = v` overwrites the value
in place when the key is present (keeping its position) and appends a new
entry otherwise; lookup `d[k]` finds the (unique) entry with key `k`. -/

/-- An insertion-ordered string-keyed mapping (Python `dict`). -/
abbrev StrMap := List (String × String)

/-- Python `d[k] = v`. -/
def mapSet : StrMap → String → String → StrMap
  | [], k, v => [(k, v)]
  | (k0, v0) :: rest, k, v =>
    if k0 = k then (k0, v) :: rest else (k0, v0) :: mapSet rest k v

/-- Python `d[k]` (`none` models a `KeyError`). -/
def mapGet : StrMap → String → Option String
  | [], _ => none
  | (k0, v0) :: rest, k => if k0 = k then some v0 else mapGet rest k

theorem mapGet_mapSet_self (d : StrMap) (k v : String) :
    mapGet (mapSet d k v) k = some v := by
  induction d with
  | nil => simp [mapSet, mapGet]
  | cons p rest ih =>
    obtain ⟨k0, v0⟩ := p
    by_cases hk : k0 = k
    · simp [mapSet, mapGet, hk]
    · simp [mapSet, mapGet, hk, ih]

theorem mapGet_mapSet_ne (d : StrMap) (k v k' : String) (h : k' ≠ k) :
    mapGet (mapSet d k v) k' = mapGet d k' := by
  induction d with
  | nil => simp [mapSet, mapGet, Ne.symm h]
  | cons p rest ih =>
    obtain ⟨k0, v0⟩ := p
    by_cases hk : k0 = k
    · subst hk
      simp [mapSet, mapGet, Ne.symm h]
    · simp [mapSet, mapGet, hk, ih]

/-- Assignment to a fresh key appends it to the key sequence. -/
theorem mapSet_keys_new (d : StrMap) (k v : String) (h : ¬ k ∈ d.map Prod.fst) :
    (mapSet d k v).map Prod.fst = d.map Prod.fst ++ [k] := by
  induction d with
  | nil => simp [mapSet]
  | cons p rest ih =>
    obtain ⟨k0, v0⟩ := p
    simp only [List.map_cons, List.mem_cons] at h
    push_neg at h
    simp [mapSet, Ne.symm h.1, ih h.2]

/-- Assignment to an existing key leaves the key sequence unchanged. -/
theorem mapSet_keys_mem (d : StrMap) (k v : String) (h : k ∈ d.map Prod.fst) :
    (mapSet d k v).map Prod.fst = d.map Prod.fst := by
  induction d with
  | nil => simp at h
  | cons p rest ih =>
    obtain ⟨k0, v0⟩ := p
    by_cases hk : k0 = k
    · simp [mapSet, hk]
    · simp only [List.map_cons, List.mem_cons] at h
      rcases h with h | h

      · exact absurd h.symm hk
      · simp [mapSet, hk, ih h]

/-- Building a `dict` by a sequence of assignments, starting from `d`. -/
def assignAll (d : StrMap) (l : List (String × String)) : StrMap :=
  l.foldl (fun acc kv => mapSet acc kv.1 kv.2) d

/-- Building a `dict` by a sequence of assignments into an empty `dict`. -/
def buildFromList (l : List (String × String)) : StrMap :=
  assignAll [] l

theorem assignAll_get_not_mem (l : List (String × String)) (d : StrMap) (k : String)
    (h : ¬ k ∈ l.map Prod.fst) : mapGet (assignAll d l) k = mapGet d k := by
  induction l generalizing d with
  | nil => rfl
  | cons p rest ih =>
    obtain ⟨k0, v0⟩ := p
    simp only [List.map_cons, List.mem_cons] at h
    push_neg at h
    rw [assignAll, List.foldl_cons]
    rw [show List.foldl (fun acc kv => mapSet acc kv.1 kv.2) (mapSet d k0 v0) rest
          = assignAll (mapSet d k0 v0) rest from rfl]
    rw [ih (mapSet d k0 v0) h.2, mapGet_mapSet_ne d k0 v0 k h.1]

theorem assignAll_get_mem (l : List (String × String)) (d : StrMap) (k v : String)
    (hnd : (l.map Prod.fst).Nodup) (hmem : (k, v) ∈ l) :
    mapGet (assignAll d l) k = some v := by
  induction l generalizing d with
  | nil => simp at hmem
  | cons p rest ih =>
    obtain ⟨k0, v0⟩ := p
    simp only [List.map_cons, List.nodup_cons] at hnd
    rw [assignAll, List.foldl_cons]
    rw [show List.foldl (fun acc kv => mapSet acc kv.1 kv.2) (mapSet d k0 v0) rest
          = assignAll (mapSet d k0 v0) rest from rfl]
    rcases List.mem_cons.mp hmem with h | h
    · obtain ⟨hk, hv⟩ := Prod.mk.injEq .. ▸ h
      subst hk; subst hv
      rw [assignAll_get_not_mem rest (mapSet d k v) k hnd.1]
      exact mapGet_mapSet_self d k v
    · exact ih (mapSet d k0 v0) hnd.2 h

theorem assignAll_keys_new (l : List (String × String)) (d : StrMap)
    (hnd : (l.map Prod.fst).Nodup)
    (hdis : ∀ k ∈ l.map Prod.fst, ¬ k ∈ d.map Prod.fst) :
    (assignAll d l).map Prod.fst = d.map Prod.fst ++ l.map Prod.fst := by
  induction l generalizing d with
  | nil => simp [assignAll]
  | cons p rest ih =>
    obtain ⟨k0, v0⟩ := p
    simp only [List.map_cons, List.nodup_cons] at hnd
    rw [assignAll, List.foldl_cons]
    rw [show List.foldl (fun acc kv => mapSet acc kv.1 kv.2) (mapSet d k0 v0) rest
          = assignAll (mapSet d k0 v0) rest from rfl]
    have hk0 : ¬ k0 ∈ d.map Prod.fst := hdis k0 (by simp)
    have hkeys := mapSet_keys_new d k0 v0 hk0
    rw [ih (mapSet d k0 v0) hnd.2]
    · simp [hkeys]
    · intro k hk
      rw [hkeys]
      intro hmem
      rcases List.mem_append.mp hmem with h | h
      · exact hdis k (by simp [hk]) h
      · simp only [List.mem_singleton] at h
        subst h
        exact hnd.1 hk

/-! ## Section splitter

`app.py` line 111-112:
`sections = re.split(r'(?=\bSECTION\b)', template_text)` followed by
`sections = [s.strip() for s in sections if s.strip()]`.

`re.split` on the zero-width lookahead cuts the text immediately before every
position where the word boundary `\b` holds, the literal token `SECTION`
follows, and another word boundary follows the token.  A word character for
`\b` is an alphanumeric character or an underscore. -/

/-- A regex word character (`\w`), as used by the `\b` boundaries. -/
def isWordChar (c : Char) : Bool :=
  c.isAlphanum || c = '_'

/-- `\b` holds before the current position, given the preceding character
(`none` at the start of the text); the following character is the word
character `S`. -/
def boundaryBefore : Option Char → Bool
  | none => true
  | some c => !isWordChar c

/-- The literal token `SECTION` starts here, followed by a word boundary. -/
def sectionTokenHere : List Char → Bool
  | 'S' :: 'E' :: 'C' :: 'T' :: 'I' :: 'O' :: 'N' :: rest =>
    match rest with
    | [] => true
    | c :: _ => !isWordChar c
  | _ => false

/-- One pass of `re.split(r'(?=\bSECTION\b)', ...)`: `prev` is the character
before the current position, `acc` the (reversed) piece accumulated since the
previous cut.  A cut closes the current piece and starts the next piece at the
match position. -/
def reSplitAux : Option Char → List Char → List Char → List (List Char)
  | _, acc, [] => [acc.reverse]
  | prev, acc, c :: rest =>
    if boundaryBefore prev && sectionTokenHere (c :: rest) then
      acc.reverse :: reSplitAux (some c) [c] rest
    else
      reSplitAux (some c) (c :: acc) rest

/-- `re.split(r'(?=\bSECTION\b)', t)`. -/
def reSplitPieces (t : String) : List String :=
  (reSplitAux none [] t.data).map (fun l => ⟨l⟩)

/-- One step of `[s.strip() for s in sections if s.strip()]`. -/
def stripKeep (s : String) : Option String :=
  if pyStrip s = "" then none else some (pyStrip s)

/-- The full section splitter of the Generate Report handler. -/
def splitSections (t : String) : List String :=
  (reSplitPieces t).filterMap stripKeep

/-- Concatenation of a list of strings (`"".join`). -/
def concatAll : List String → String
  | [] => ""
  | s :: rest => s ++ concatAll rest

/-- `t` is the sections interleaved, in order, with whitespace-only filler:
what survives of the original text once each piece is trimmed and
whitespace-only pieces are dropped. -/
def IsWsInterleave : String → List String → Prop
  | t, [] => wsOnly t = true
  | t, s :: rest => ∃ w r, wsOnly w = true ∧ t = w ++ s ++ r ∧ IsWsInterleave r rest

/-! ### Splitting loses no characters -/

theorem reSplitAux_flatten :
    ∀ (l : List Char) (prev : Option Char) (acc : List Char),
      (reSplitAux prev acc l).flatten = acc.reverse ++ l := by
  intro l
  induction l with
  | nil => intro prev acc; simp [reSplitAux]
  | cons c rest ih =>
    intro prev acc
    by_cases h : boundaryBefore prev && sectionTokenHere (c :: rest)
    · simp [reSplitAux, h, ih]
    · simp [reSplitAux, h, ih]

theorem concatAll_data :
    ∀ ss : List String, (concatAll ss).data = (ss.map String.data).flatten := by
  intro ss
  induction ss with
  | nil => rfl
  | cons s rest ih => simp [concatAll, String.data_append, ih]

theorem concatAll_reSplitPieces (t : String) : concatAll (reSplitPieces t) = t := by
  apply String.ext
  rw [concatAll_data, reSplitPieces, List.map_map]
  have : (String.data ∘ fun l : List Char => (⟨l⟩ : String)) = id := rfl
  rw [this, List.map_id]
  exact reSplitAux_flatten t.data none []

/-! ### Trimming -/

theorem dropWhile_head_false (p : Char → Bool) :
    ∀ (l : List Char) (c : Char), (l.dropWhile p).head? = some c → p c = false := by
  intro l
  induction l with
  | nil => intro c h; simp [List.dropWhile] at h
  | cons c0 rest ih =>
    intro c h
    by_cases hp : p c0
    · rw [List.dropWhile_cons_of_pos hp] at h
      exact ih c h
    · rw [List.dropWhile_cons_of_neg hp, List.head?_cons, Option.some.injEq] at h
      subst h
      exact Bool.eq_false_iff.mpr hp

theorem dropWhile_idem (p : Char → Bool) (l : List Char) :
    (l.dropWhile p).dropWhile p = l.dropWhile p := by
  cases hd : l.dropWhile p with
  | nil => rfl
  | cons c rest =>
    have hc : p c = false := dropWhile_head_false p l c (by rw [hd]; rfl)
    rw [List.dropWhile_cons_of_neg (by simp [hc])]

theorem stripList_decomp (p : Char → Bool) (l : List Char) :
    ∃ a b : List Char, a.all p = true ∧ b.all p = true ∧
      l = a ++ stripList p l ++ b := by
  refine ⟨l.takeWhile p, ((l.dropWhile p).reverse.takeWhile p).reverse, ?_, ?_, ?_⟩
  · rw [List.all_eq_true]
    intro c hc
    exact List.mem_takeWhile_imp hc
  · rw [List.all_eq_true]
    intro c hc
    exact List.mem_takeWhile_imp (List.mem_reverse.mp hc)
  · conv_lhs => rw [← List.takeWhile_append_dropWhile (p := p) (l := l)]
    rw [List.append_assoc]
    congr 1
    conv_lhs => rw [← List.reverse_reverse (l.dropWhile p),
      ← List.takeWhile_append_dropWhile (p := p) (l := (l.dropWhile p).reverse)]
    rw [List.reverse_append]
    rfl

theorem stripList_all_nil (p : Char → Bool) (l : List Char) (h : l.all p = true) :
    stripList p l = [] := by
  have hl : l.dropWhile p = [] := by
    rw [List.dropWhile_eq_nil_iff]
    intro x hx
    exact List.all_eq_true.mp h x hx
  simp [stripList, hl]

theorem wsOnly_of_pyStrip_empty {s : String} (h : pyStrip s = "") : wsOnly s = true := by
  obtain ⟨a, b, ha, hb, hdec⟩ := stripList_decomp isPySpace s.data
  have hcore : stripList isPySpace s.data = [] := congrArg String.data h
  rw [hcore, List.append_nil] at hdec
  rw [wsOnly, hdec, List.all_append]
  simp [ha, hb]

theorem pyStrip_empty_of_wsOnly {s : String} (h : wsOnly s = true) : pyStrip s = "" := by
  apply String.ext
  exact stripList_all_nil isPySpace s.data h

/-- `stripList p l` is what remains of `l.dropWhile p` once its trailing run
of `p`-characters is removed. -/
theorem dropWhile_eq_stripList_append (p : Char → Bool) (l : List Char) :
    l.dropWhile p = stripList p l ++ ((l.dropWhile p).reverse.takeWhile p).reverse := by
  conv_lhs => rw [← List.reverse_reverse (l.dropWhile p),
    ← List.takeWhile_append_dropWhile (p := p) (l := (l.dropWhile p).reverse)]
  rw [List.reverse_append]
  rfl

theorem stripList_dropWhile_self (p : Char → Bool) (l : List Char) :
    (stripList p l).dropWhile p = stripList p l := by
  cases hr : stripList p l with
  | nil => rfl
  | cons c rest =>
    have hm := dropWhile_eq_stripList_append p l
    rw [hr] at hm
    have hc : p c = false := dropWhile_head_false p l c (by rw [hm]; rfl)
    rw [List.dropWhile_cons_of_neg (by simp [hc])]

theorem stripList_idem (p : Char → Bool) (l : List Char) :
    stripList p (stripList p l) = stripList p l := by
  have h1 : (stripList p l).reverse = ((l.dropWhile p).reverse).dropWhile p := by
    rw [stripList, List.reverse_reverse]
  show (((stripList p l).dropWhile p).reverse.dropWhile p).reverse = stripList p l
  rw [stripList_dropWhile_self p l, h1, dropWhile_idem, ← h1, List.reverse_reverse]

theorem pyStrip_idem (s : String) : pyStrip (pyStrip s) = pyStrip s :=
  String.ext (stripList_idem isPySpace s.data)

/-- Every surviving section is non-empty and already trimmed. -/
theorem splitSections_mem {t : String} {s : String} (h : s ∈ splitSections t) :
    s ≠ "" ∧ pyStrip s = s := by
  obtain ⟨u, _, hu⟩ := List.mem_filterMap.mp h
  rw [stripKeep] at hu
  by_cases he : pyStrip u = ""
  · simp [he] at hu
  · rw [if_neg he, Option.some.injEq] at hu
    subst hu
    exact ⟨he, pyStrip_idem u⟩

/-- The surviving sections are exactly the trims of the pieces that are not
whitespace-only, in order. -/
theorem splitSections_eq_filter (t : String) :
    splitSections t = ((reSplitPieces t).filter (fun s => !wsOnly s)).map pyStrip := by
  rw [splitSections]
  induction reSplitPieces t with
  | nil => rfl
  | cons s rest ih =>
    by_cases hw : wsOnly s = true
    · have : stripKeep s = none := by
        rw [stripKeep, if_pos (pyStrip_empty_of_wsOnly hw)]
      simp [this, hw, ih]
    · have hne : pyStrip s ≠ "" := fun he => hw (wsOnly_of_pyStrip_empty he)
      have : stripKeep s = some (pyStrip s) := by rw [stripKeep, if_neg hne]
      simp [this, Bool.not_eq_true _ ▸ hw, ih]

/-! ### Whitespace interleaving -/

theorem wsOnly_append {a b : String} (ha : wsOnly a = true) (hb : wsOnly b = true) :
    wsOnly (a ++ b) = true := by
  rw [wsOnly, String.data_append, List.all_append, Bool.and_eq_true]
  exact ⟨ha, hb⟩

theorem isWsInterleave_prepend {w t : String} {ss : List String}
    (hw : wsOnly w = true) (h : IsWsInterleave t ss) : IsWsInterleave (w ++ t) ss := by
  cases ss with
  | nil => exact wsOnly_append hw h
  | cons s rest =>
    obtain ⟨w', r, hw', ht, hr⟩ := h
    refine ⟨w ++ w', r, wsOnly_append hw hw', ?_, hr⟩
    rw [ht]
    simp [String.append_assoc]

/-- Each string decomposes as whitespace, its trim, whitespace. -/
theorem pyStrip_decomp (s : String) :
    ∃ a b : String, wsOnly a = true ∧ wsOnly b = true ∧ s = a ++ pyStrip s ++ b := by
  obtain ⟨a, b, ha, hb, hdec⟩ := stripList_decomp isPySpace s.data
  refine ⟨⟨a⟩, ⟨b⟩, ha, hb, ?_⟩
  apply String.ext
  rw [String.data_append, String.data_append]
  exact hdec

theorem isWsInterleave_concat :
    ∀ ss : List String, IsWsInterleave (concatAll ss) (ss.filterMap stripKeep) := by
  intro ss
  induction ss with
  | nil => rfl
  | cons s rest ih =>
    by_cases he : pyStrip s = ""
    · have hk : stripKeep s = none := by rw [stripKeep, if_pos he]
      rw [List.filterMap_cons, hk]
      exact isWsInterleave_prepend (wsOnly_of_pyStrip_empty he) ih
    · have hk : stripKeep s = some (pyStrip s) := by rw [stripKeep, if_neg he]
      rw [List.filterMap_cons, hk]
      obtain ⟨a, b, ha, hb, hdec⟩ := pyStrip_decomp s
      refine ⟨a, b ++ concatAll rest, ha, ?_, isWsInterleave_prepend hb ih⟩
      rw [concatAll]
      conv_lhs => rw [hdec]
      simp [String.append_assoc]

/-! ## Ordinals and section keys -/

/-- `range(1, n + 1)`: the ordinals assigned by `enumerate(sections, start=1)`
and iterated by the joins. -/
def ordinals (n : Nat) : List Nat :=
  (List.range n).map (fun k => k + 1)

/-- The f-string key `f"section_{i}"`. -/
def sectionKey (i : Nat) : String :=
  "section_" ++ natStr i

theorem mem_ordinals {i n : Nat} : i ∈ ordinals n ↔ 1 ≤ i ∧ i ≤ n := by
  simp only [ordinals, List.mem_map, List.mem_range]
  constructor
  · rintro ⟨k, hk, rfl⟩; omega
  · rintro ⟨h1, h2⟩; exact ⟨i - 1, by omega, by omega⟩

theorem ordinals_nodup (n : Nat) : (ordinals n).Nodup :=
  (List.nodup_range n).map (fun a b h => by omega)

theorem sectionKey_injective : Function.Injective sectionKey := by
  intro a b h
  have hd := congrArg String.data h
  rw [sectionKey, sectionKey, String.data_append, String.data_append] at hd
  exact natStr_injective (String.ext (List.append_cancel_left hd))

/-! ## Report assembly -/

/-- `[report_sections[f"section_{i}"] for i in L]` with `KeyError` explicit. -/
def lookupAll (d : StrMap) : List Nat → Option (List String)
  | [] => some []
  | i :: is =>
    match mapGet d (sectionKey i), lookupAll d is with
    | some t, some ts => some (t :: ts)
    | _, _ => none

/-- `"\n\n".join(report_sections[f"section_{i}"] for i in range(1, n + 1))`;
`none` models the join raising `KeyError` on a missing ordinal. -/
def assembleReport (d : StrMap) (n : Nat) : Option String :=
  (lookupAll d (ordinals n)).map (pyJoin "\n\n")

/-- The joined segments in ordinal order (the handlers only ever join
fully-populated mappings, where every `mapGet` is a `some`). -/
def reportSegments (d : StrMap) (n : Nat) : List String :=
  (ordinals n).map (fun i => (mapGet d (sectionKey i)).getD "")

/-- The totalised join used by the handlers. -/
def joinSections (d : StrMap) (n : Nat) : String :=
  pyJoin "\n\n" (reportSegments d n)

theorem lookupAll_eq_map (d : StrMap) (f : Nat → String) :
    ∀ L : List Nat, (∀ i ∈ L, mapGet d (sectionKey i) = some (f i)) →
      lookupAll d L = some (L.map f) := by
  intro L
  induction L with
  | nil => intro _; rfl
  | cons i is ih =>
    intro h
    simp [lookupAll, h i (List.mem_cons_self i is),
      ih (fun j hj => h j (List.mem_cons_of_mem i hj))]

/-! ## Snapshot files -/

/-- The two snapshot-writing events. -/
inductive SnapKind where
  | generation
  | refinement
  deriving DecidableEq

/-- `f"report_{ts}.txt"` for a generation, `f"report_updated_{ts}.txt"` for a
refinement. -/
def snapshotName : SnapKind → String → String
  | SnapKind.generation, ts => "report_" ++ ts ++ ".txt"
  | SnapKind.refinement, ts => "report_updated_" ++ ts ++ ".txt"

/-- `Path.write_text`: create the file, or truncate and overwrite an existing
one.  The outputs directory is a name-to-content mapping. -/
def writeSnapshot (fs : StrMap) (name content : String) : StrMap :=
  mapSet fs name content

def applyWrites (fs : StrMap) (ws : List (String × String)) : StrMap :=
  ws.foldl (fun a w => writeSnapshot a w.1 w.2) fs

/-- Shape of `datetime.utcnow().strftime("%Y%m%dT%H%M%SZ")`:
eight digits, `T`, six digits, `Z`. -/
def WfTimestamp (ts : String) : Prop :=
  ts.data.length = 16
  ∧ (ts.data.take 8).all Char.isDigit = true
  ∧ (ts.data.drop 8).head? = some 'T'
  ∧ ((ts.data.drop 9).take 6).all Char.isDigit = true
  ∧ (ts.data.drop 15).head? = some 'Z'

instance (ts : String) : Decidable (WfTimestamp ts) := by
  unfold WfTimestamp
  infer_instance

/-! ## Session state and action handlers -/

/-- The per-session fields `st.session_state.report_sections`,
`st.session_state.total_sections` and `st.session_state.full_report`. -/
structure SessionState where
  report_sections : StrMap
  total_sections : Nat
  full_report : String
  deriving DecidableEq

/-- The inline error marker
`f"[ERROR: Gemini API failed for this section: {e}]"`. -/
def errorMarker (e : String) : String :=
  "[ERROR: Gemini API failed for this section: " ++ e ++ "]"

/-- One iteration of the generation loop for ordinal `i`: the outcome of
`generate_response(prompt_i)` is supplied by `oracle i` (`Except.error e`
models the call raising an exception whose `str` is `e`; the prompt for
ordinal `i` embeds the `i`-th section text and the serialized dataset).  The
`try/except` turns a raise into the inline error marker, and the stored text
is stripped of leading and trailing newlines. -/
def sectionResult (oracle : Nat → Except String String) (i : Nat) : String :=
  pyStripNL (match oracle i with
    | Except.ok s => s
    | Except.error e => errorMarker e)

/-- The `for i, section in enumerate(sections, start=1)` loop filling
`report_sections` one ordinal at a time. -/
def buildSections (n : Nat) (oracle : Nat → Except String String) : StrMap :=
  buildFromList ((ordinals n).map (fun i => (sectionKey i, sectionResult oracle i)))

/-- Outcome of the Generate Report handler after template loading. -/
inductive GenOutcome where
  | halted (msg : String)
  | completed (s : SessionState) (written : String × String)
  deriving DecidableEq

def noSectionsMsg : String :=
  "No sections found in template. Ensure your template uses \x27SECTION\x27 headers."

/-- The Generate Report handler from the split on: split the template, halt
with a user-visible error when no section survives (before any remote call),
otherwise fill `report_sections` ordinal by ordinal, persist the session
fields and write the snapshot `report_<ts>.txt`.  The second component
counts the remote generation calls made. -/
def generateHandlerR (t : String) (oracle : Nat → Except String String) (ts : String) :
    GenOutcome × Nat :=
  let secs := splitSections t
  if secs.length = 0 then
    (GenOutcome.halted noSectionsMsg, 0)
  else
    let n := secs.length
    let d := buildSections n oracle
    let report := joinSections d n
    (GenOutcome.completed ⟨d, n, report⟩ (snapshotName SnapKind.generation ts, report), n)

/-- The Regenerate Selected Section handler: a raise from
`generate_response` (`Except.error`) hits `st.error` and `st.stop()` before
any mutation or write; otherwise ordinal `j`'s entry is overwritten with the
newline-stripped reply, the full report is rebuilt and
`report_updated_<ts>.txt` is written.  The second component lists the files
written. -/
def refineHandler (s : SessionState) (j : Nat) (res : Except String String) (ts : String) :
    SessionState × List (String × String) :=
  match res with
  | Except.error _ => (s, [])
  | Except.ok revised =>
    let d := mapSet s.report_sections (sectionKey j) (pyStripNL revised)
    let updated := joinSections d s.total_sections
    (⟨d, s.total_sections, updated⟩, [(snapshotName SnapKind.refinement ts, updated)])

/-- The session invariant of C10: the mapping holds exactly the keys
`section_1 .. section_N` in ordinal order, and the stored full report is
their blank-line join. -/
def SessionInv (s : SessionState) : Prop :=
  s.report_sections.map Prod.fst = (ordinals s.total_sections).map sectionKey
  ∧ s.full_report = joinSections s.report_sections s.total_sections

/-! ## `gemini_api` -/

/-- What the SDK response object offers: whether `hasattr(response, "text")`,
the value of `response.text` when present (`""` is falsy), and
`str(response)`. -/
structure PyResponse where
  hasText : Bool
  text : String
  asStr : String
  deriving DecidableEq

/-- A Python exception value: whether it is a `TypeError`, and `str(e)`. -/
structure PyErr where
  isTypeError : Bool
  msg : String
  deriving DecidableEq

/-- Result of one `client.models.generate_content(...)` call. -/
inductive CallResult where
  | ok (r : PyResponse)
  | raise (e : PyErr)
  deriving DecidableEq

/-- The environment of one `generate_response` call: the credential lookup
`st.secrets["GEMINI_API_KEY"]` (`none` models the lookup raising, caught in
`get_gemini_client`), whether `genai.Client(...)` succeeds, and the outcomes
of the preferred (config-carrying) and the minimal `generate_content`
invocations for the prompt at hand. -/
structure GeminiEnv where
  secretKey : Option String
  clientOk : Bool
  preferredCall : CallResult
  minimalCall : CallResult
  deriving DecidableEq

/-- `get_gemini_client`: `None` when the secret is missing or falsy, or when
the client constructor raises. -/
def get_gemini_client (env : GeminiEnv) : Option Unit :=
  match env.secretKey with
  | none => none
  | some k => if k = "" then none else if env.clientOk then some () else none

/-- Which invocation styles were attempted, in order. -/
inductive CallKind where
  | preferred
  | minimal
  deriving DecidableEq

def callModel (c : CallResult) : Except PyErr PyResponse :=
  match c with
  | CallResult.ok r => Except.ok r
  | CallResult.raise e => Except.error e

/-- The inner
`try: generate_content(model, contents, temperature, max_output_tokens)
except TypeError: generate_content(model, contents)`: the attempts made, in
order, and the surviving outcome.  Only a `TypeError` from the preferred
call triggers the minimal retry; any other exception propagates. -/
def generate_attempts (env : GeminiEnv) : List CallKind × Except PyErr PyResponse :=
  match callModel env.preferredCall with
  | Except.ok r => ([CallKind.preferred], Except.ok r)
  | Except.error e =>
    if e.isTypeError then
      ([CallKind.preferred, CallKind.minimal], callModel env.minimalCall)
    else
      ([CallKind.preferred], Except.error e)

/-- `if hasattr(response, "text") and response.text: return
response.text.strip()` else `return str(response)`. -/
def extractText (r : PyResponse) : String :=
  if r.hasText && (r.text != "") then pyStrip r.text else r.asStr

def apiKeyMsg : String := "Initialization failed: missing or invalid API key."

/-- `generate_response` in exception-passing style: an `Except.error` leaving
this function would model an exception crossing its boundary; the outer
`except Exception` converts any raise into the inline `Gemini API Error`
string. -/
def generate_responseE (env : GeminiEnv) (prompt : String) : Except PyErr String :=
  match get_gemini_client env with
  | none => Except.ok apiKeyMsg
  | some _ =>
    match (generate_attempts env).2 with
    | Except.ok r => Except.ok (extractText r)
    | Except.error e => Except.ok ("Gemini API Error: " ++ e.msg)

/-- The invocations actually sent to the remote service. -/
def generate_calls (env : GeminiEnv) : List CallKind :=
  match get_gemini_client env with
  | none => []
  | some _ => (generate_attempts env).1

def raisesTypeError : CallResult → Bool
  | CallResult.raise e => e.isTypeError
  | _ => false

/-! ## Helper lemmas about the handlers -/

theorem buildSections_get (n : Nat) (oracle : Nat → Except String String) :
    ∀ i ∈ ordinals n,
      mapGet (buildSections n oracle) (sectionKey i) = some (sectionResult oracle i) := by
  intro i hi
  apply assignAll_get_mem
  · rw [List.map_map]
    have hcomp : (Prod.fst ∘ fun i => (sectionKey i, sectionResult oracle i)) = sectionKey := rfl
    rw [hcomp]
    exact (ordinals_nodup n).map sectionKey_injective
  · exact List.mem_map.mpr ⟨i, hi, rfl⟩

theorem buildSections_keys (n : Nat) (oracle : Nat → Except String String) :
    (buildSections n oracle).map Prod.fst = (ordinals n).map sectionKey := by
  rw [buildSections, buildFromList, assignAll_keys_new]
  · rw [List.map_map]
    have hcomp : (Prod.fst ∘ fun i => (sectionKey i, sectionResult oracle i)) = sectionKey := rfl
    rw [hcomp]
    rfl
  · rw [List.map_map]
    have hcomp : (Prod.fst ∘ fun i => (sectionKey i, sectionResult oracle i)) = sectionKey := rfl
    rw [hcomp]
    exact (ordinals_nodup n).map sectionKey_injective
  · intro k _ hk
    simp at hk

theorem stripList_eq_self_of_ends (p : Char → Bool) (l : List Char)
    (hh : ∀ c, l.head? = some c → p c = false)
    (hl : ∀ c, l.getLast? = some c → p c = false) :
    stripList p l = l := by
  have h1 : l.dropWhile p = l := by
    cases l with
    | nil => rfl
    | cons c rest => rw [List.dropWhile_cons_of_neg (by simp [hh c rfl])]
  rw [stripList, h1]
  have h2 : l.reverse.dropWhile p = l.reverse := by
    cases hr : l.reverse with
    | nil => rfl
    | cons c rest =>
      have hlast : l.getLast? = some c := by
        rw [← List.head?_reverse, hr, List.head?_cons]
      rw [List.dropWhile_cons_of_neg (by simp [hl c hlast])]
  rw [h2, List.reverse_reverse]

theorem pyStripNL_errorMarker (e : String) : pyStripNL (errorMarker e) = errorMarker e := by
  apply String.ext
  show stripList (fun c => c = '\n') (errorMarker e).data = (errorMarker e).data
  apply stripList_eq_self_of_ends
  · intro c hc
    have hd : (errorMarker e).data
        = '[' :: ("ERROR: Gemini API failed for this section: ".data ++ (e.data ++ "]".data)) := by
      rw [errorMarker, String.data_append, String.data_append]
      rfl
    rw [hd, List.head?_cons, Option.some.injEq] at hc
    subst hc
    decide
  · intro c hc
    have hd : (errorMarker e).data
        = ("[ERROR: Gemini API failed for this section: ".data ++ e.data) ++ [']'] := by
      rw [errorMarker, String.data_append, String.data_append]
    rw [hd, List.getLast?_concat, Option.some.injEq] at hc
    subst hc
    decide

/-- Overwriting ordinal `j`'s entry replaces exactly the `(j-1)`-th joined
segment. -/
theorem reportSegments_set (d : StrMap) (n j : Nat) (v : String)
    (hj1 : 1 ≤ j) (hjn : j ≤ n) :
    reportSegments (mapSet d (sectionKey j) v) n
      = (reportSegments d n).set (j - 1) v := by
  have hlen : ∀ d' : StrMap, (reportSegments d' n).length = n := by
    intro d'
    rw [reportSegments, List.length_map, ordinals, List.length_map, List.length_range]
  have hseg : ∀ (d' : StrMap) (p : Nat), p < n →
      (reportSegments d' n)[p]? = some ((mapGet d' (sectionKey (p + 1))).getD "") := by
    intro d' p hp
    rw [reportSegments, ordinals, List.map_map, List.getElem?_map, List.getElem?_range hp]
    rfl
  apply List.ext_getElem?
  intro p
  by_cases hp : p < n
  · rw [hseg _ p hp, List.getElem?_set]
    by_cases hpj : j - 1 = p
    · have hj : p + 1 = j := by omega
      rw [if_pos hpj, if_pos (by rw [hlen]; omega), hj, mapGet_mapSet_self]
      rfl
    · have hne : sectionKey (p + 1) ≠ sectionKey j := by
        intro he
        exact hpj (by have := sectionKey_injective he; omega)
      rw [if_neg hpj, hseg _ p hp, mapGet_mapSet_ne _ _ _ _ hne]
  · rw [List.getElem?_eq_none (by rw [hlen]; omega),
      List.getElem?_eq_none (by rw [List.length_set, hlen]; omega)]

/-- A well-formed timestamp starts with a digit. -/
theorem wfTimestamp_head_digit {ts : String} (h : WfTimestamp ts) :
    ∃ c cs, ts.data = c :: cs ∧ c.isDigit = true := by
  obtain ⟨hlen, hdig, _, _, _⟩ := h
  cases hd : ts.data with
  | nil => rw [hd] at hlen; simp at hlen
  | cons c cs =>
    refine ⟨c, cs, rfl, ?_⟩
    rw [hd] at hdig
    have h8 : (c :: cs).take 8 = c :: cs.take 7 := rfl
    rw [h8, List.all_cons, Bool.and_eq_true] at hdig
    exact hdig.1

/-! ## The claims -/

/-- Claim C1: for every template text, the section splitter returns exactly
the trims of the non-whitespace-only marker-delimited pieces, in order (so
with `k` such pieces it returns exactly `k` sections, whose ordinals
`1..k` are their 1-based positions, assigned densely by
`enumerate(sections, start=1)`); every surviving section is non-empty and
trimmed; and the original template is recovered from the trimmed sections by
re-inserting whitespace-only filler between them, so their concatenation
reconstructs the original marked content up to the trimmed whitespace.  The
split itself (`reSplitAux`) cuts immediately before each whole-word,
case-sensitive occurrence of the literal token `SECTION`. -/
theorem C1_splitter_sections (t : String) :
    splitSections t = ((reSplitPieces t).filter (fun s => !wsOnly s)).map pyStrip
    ∧ (splitSections t).length = ((reSplitPieces t).filter (fun s => !wsOnly s)).length
    ∧ (∀ s ∈ splitSections t, s ≠ "" ∧ pyStrip s = s)
    ∧ IsWsInterleave t (splitSections t) := by
  refine ⟨splitSections_eq_filter t, ?_, fun s hs => splitSections_mem hs, ?_⟩
  · rw [splitSections_eq_filter t, List.length_map]
  · have h := isWsInterleave_concat (reSplitPieces t)
    rwa [concatAll_reSplitPieces t, ← splitSections] at h

/-- Claim C2: for every mapping of `n` section ordinals to texts, however the
entries were inserted (any permutation of the ordinals, each assigned its
text), assembling the full report yields the `n` texts joined in ascending
ordinal order with exactly one blank line (`"\n\n"`) between consecutive
texts. -/
theorem C2_assemble_order_independent (n : Nat) (f : Nat → String) (ins : List Nat)
    (hperm : ins.Perm (ordinals n)) :
    assembleReport (buildFromList (ins.map (fun i => (sectionKey i, f i)))) n
      = some (pyJoin "\n\n" ((ordinals n).map f)) := by
  have hcomp : (Prod.fst ∘ fun i => (sectionKey i, f i)) = sectionKey := rfl
  have hnd : ((ins.map (fun i => (sectionKey i, f i))).map Prod.fst).Nodup := by
    rw [List.map_map, hcomp]
    exact (hperm.nodup_iff.mpr (ordinals_nodup n)).map sectionKey_injective
  have hget : ∀ i ∈ ordinals n,
      mapGet (buildFromList (ins.map (fun i => (sectionKey i, f i)))) (sectionKey i)
        = some (f i) := by
    intro i hi
    exact assignAll_get_mem _ _ _ _ hnd
      (List.mem_map.mpr ⟨i, hperm.mem_iff.mpr hi, rfl⟩)
  rw [assembleReport, lookupAll_eq_map _ f _ hget]
  rfl

/-- Witness for C2 at a concrete out-of-order insertion. -/
theorem C2_witness :
    assembleReport (buildFromList ([2, 1].map
        (fun i => (sectionKey i, if i = 1 then "one" else "two")))) 2
      = some (pyJoin "\n\n" ((ordinals 2).map (fun i => if i = 1 then "one" else "two"))) :=
  C2_assemble_order_independent 2 (fun i => if i = 1 then "one" else "two") [2, 1] (by decide)

/-- Counterexample to claim C3 as stated: the Regenerate Selected Section
handler stores `revised_section.strip("\n")`, so for the replacement text
`"\nX\n"` the resulting `j`-th segment is `"X"`, not the replacement text
itself. -/
theorem C3_counterexample :
    mapGet ((refineHandler ⟨[(sectionKey 1, "A"), (sectionKey 2, "B")], 2, "A\n\nB"⟩
        1 (Except.ok "\nX\n") "20260101T000000Z").1).report_sections (sectionKey 1)
      = some "X"
    ∧ ("X" : String) ≠ "\nX\n" := by
  constructor
  · decide
  · decide

/-- Claim C3 (amended): for every session, target ordinal `j` in range and
replacement text, the refinement handler stores the replacement text stripped
of leading and trailing newline characters as ordinal `j`'s entry; every
entry with ordinal different from `j` is byte-identical to before; hence the
segment list of the reassembled report equals the previous segment list with
only position `j - 1` replaced (by the newline-stripped text), and the new
full report is the blank-line join of those segments. -/
theorem C3_refine_patches_target (s : SessionState) (j : Nat) (t ts : String)
    (hj1 : 1 ≤ j) (hjn : j ≤ s.total_sections) :
    mapGet ((refineHandler s j (Except.ok t) ts).1).report_sections (sectionKey j)
        = some (pyStripNL t)
    ∧ (∀ i, i ≠ j →
        mapGet ((refineHandler s j (Except.ok t) ts).1).report_sections (sectionKey i)
          = mapGet s.report_sections (sectionKey i))
    ∧ reportSegments ((refineHandler s j (Except.ok t) ts).1).report_sections s.total_sections
        = (reportSegments s.report_sections s.total_sections).set (j - 1) (pyStripNL t)
    ∧ ((refineHandler s j (Except.ok t) ts).1).full_report
        = pyJoin "\n\n"
            (reportSegments ((refineHandler s j (Except.ok t) ts).1).report_sections
              s.total_sections) := by
  refine ⟨mapGet_mapSet_self _ _ _, ?_, ?_, rfl⟩
  · intro i hij
    exact mapGet_mapSet_ne _ _ _ _ (fun he => hij (sectionKey_injective he))
  · exact reportSegments_set s.report_sections s.total_sections j (pyStripNL t) hj1 hjn

/-- Witness for the amended C3 at a concrete session. -/
theorem C3_witness :
    mapGet ((refineHandler ⟨[(sectionKey 1, "A"), (sectionKey 2, "B")], 2, "A\n\nB"⟩
        2 (Except.ok "C") "20260101T000000Z").1).report_sections (sectionKey 2)
      = some (pyStripNL "C")
    ∧ mapGet ((refineHandler ⟨[(sectionKey 1, "A"), (sectionKey 2, "B")], 2, "A\n\nB"⟩
        2 (Except.ok "C") "20260101T000000Z").1).report_sections (sectionKey 1)
      = mapGet [(sectionKey 1, "A"), (sectionKey 2, "B")] (sectionKey 1) :=
  ⟨(C3_refine_patches_target ⟨[(sectionKey 1, "A"), (sectionKey 2, "B")], 2, "A\n\nB"⟩
      2 "C" "20260101T000000Z" (by decide) (by decide)).1,
   (C3_refine_patches_target ⟨[(sectionKey 1, "A"), (sectionKey 2, "B")], 2, "A\n\nB"⟩
      2 "C" "20260101T000000Z" (by decide) (by decide)).2.1 1 (by decide)⟩

/-- Claim C4: for every environment and prompt, `generate_response` returns a
string and never lets an exception cross its boundary (the result is always
`Except.ok`); and whenever no usable credential resolves (the cached client
is `None`), the call returns exactly the fixed string
`"Initialization failed: missing or invalid API key."`. -/
theorem C4_generate_response_total (env : GeminiEnv) (prompt : String) :
    (∃ s : String, generate_responseE env prompt = Except.ok s)
    ∧ (get_gemini_client env = none →
        generate_responseE env prompt = Except.ok apiKeyMsg) := by
  constructor
  · rw [generate_responseE]
    cases get_gemini_client env with
    | none => exact ⟨apiKeyMsg, rfl⟩
    | some u =>
      cases (generate_attempts env).2 with
      | ok r => exact ⟨extractText r, rfl⟩
      | error e => exact ⟨"Gemini API Error: " ++ e.msg, rfl⟩
  · intro h
    rw [generate_responseE, h]

/-- Witness for C4 in an environment with no credential. -/
theorem C4_witness :
    generate_responseE ⟨none, true, CallResult.ok ⟨true, "hi", "r"⟩,
        CallResult.ok ⟨true, "hi", "r"⟩⟩ "any prompt"
      = Except.ok apiKeyMsg :=
  (C4_generate_response_total _ "any prompt").2 rfl

/-- Claim C5: if the remote call for section `j` raises during batch
generation, ordinal `j`'s stored text is exactly the inline error marker
built from the exception message; every ordinal's stored text is determined
by its own call outcome alone (so ordinals different from `j` are
unaffected); and all `n` ordinals are present afterwards — the loop runs to
completion instead of aborting. -/
theorem C5_failure_isolated (n j : Nat) (oracle : Nat → Except String String) (e : String)
    (hj : j ∈ ordinals n) (hfail : oracle j = Except.error e) :
    mapGet (buildSections n oracle) (sectionKey j) = some (errorMarker e)
    ∧ (∀ i ∈ ordinals n,
        mapGet (buildSections n oracle) (sectionKey i) = some (sectionResult oracle i))
    ∧ (∀ oracle' : Nat → Except String String, (∀ i, i ≠ j → oracle' i = oracle i) →
        ∀ i ∈ ordinals n, i ≠ j →
          mapGet (buildSections n oracle') (sectionKey i)
            = mapGet (buildSections n oracle) (sectionKey i)) := by
  refine ⟨?_, buildSections_get n oracle, ?_⟩
  · rw [buildSections_get n oracle j hj, sectionResult, hfail, pyStripNL_errorMarker]
  · intro oracle' hagree i hi hij
    rw [buildSections_get n oracle' i hi, buildSections_get n oracle i hi,
      sectionResult, sectionResult, hagree i hij]

/-- Witness for C5: a concrete two-section run whose first call raises. -/
theorem C5_witness :
    mapGet (buildSections 2 (fun i => if i = 1 then Except.error "boom" else Except.ok "fine"))
        (sectionKey 1) = some (errorMarker "boom")
    ∧ mapGet (buildSections 2 (fun i => if i = 1 then Except.error "boom" else Except.ok "fine"))
        (sectionKey 2)
      = some (sectionResult (fun i => if i = 1 then Except.error "boom" else Except.ok "fine") 2) :=
  ⟨(C5_failure_isolated 2 1 _ "boom" (by decide) rfl).1,
   (C5_failure_isolated 2 1 _ "boom" (by decide) rfl).2.1 2 (by decide)⟩

/-- Claim C6: for every template whose split yields zero non-empty sections,
the Generate Report handler halts with the explicit user-visible error
message and makes zero remote generation calls; the handler is a total
function, so it never crashes. -/
theorem C6_empty_template_halts (t : String) (oracle : Nat → Except String String)
    (ts : String) (h : splitSections t = []) :
    generateHandlerR t oracle ts = (GenOutcome.halted noSectionsMsg, 0) := by
  simp [generateHandlerR, h]

/-- Witness for C6: a whitespace-only template. -/
theorem C6_witness :
    generateHandlerR " " (fun k => Except.ok "x") "20260101T000000Z"
      = (GenOutcome.halted noSectionsMsg, 0) :=
  C6_empty_template_halts " " (fun k => Except.ok "x") "20260101T000000Z" (by decide)

/-- Claim C7: whenever a client resolves, `generate_response` attempts the
preferred invocation (with temperature and output-token cap) first, and
retries with the minimal invocation (model and contents only) exactly when
the preferred attempt raises `TypeError` (structural incompatibility) —
never on a generic failure. -/
theorem C7_fallback_policy (env : GeminiEnv) (h : get_gemini_client env ≠ none) :
    generate_calls env
      = (if raisesTypeError env.preferredCall then [CallKind.preferred, CallKind.minimal]
         else [CallKind.preferred])
    ∧ (generate_calls env).head? = some CallKind.preferred
    ∧ (CallKind.minimal ∈ generate_calls env ↔ raisesTypeError env.preferredCall = true) := by
  obtain ⟨u, hu⟩ := Option.ne_none_iff_exists'.mp h
  have hc : generate_calls env = (generate_attempts env).1 := by
    rw [generate_calls, hu]
  cases hp : env.preferredCall with
  | ok r =>
    simp [hc, generate_attempts, hp, callModel, raisesTypeError]
  | raise e =>
    by_cases hte : e.isTypeError
    · simp [hc, generate_attempts, hp, callModel, raisesTypeError, hte]
    · simp [hc, generate_attempts, hp, callModel, raisesTypeError, hte]

/-- Witness for C7: a `TypeError` on the preferred call leads to exactly the
two attempts, in order. -/
theorem C7_witness :
    generate_calls ⟨some "key", true, CallResult.raise ⟨true, "unexpected keyword"⟩,
        CallResult.ok ⟨true, "t", "s"⟩⟩
      = [CallKind.preferred, CallKind.minimal] := by
  rw [(C7_fallback_policy ⟨some "key", true, CallResult.raise ⟨true, "unexpected keyword"⟩,
    CallResult.ok ⟨true, "t", "s"⟩⟩ (by decide)).1]
  rfl

/-- Counterexample to claim C8 as stated: two refinement persist events in
the same UTC second produce the same file name, and the second
`write_text` replaces the first snapshot, so persist events do not always
write distinct files and a snapshot can be overwritten. -/
theorem C8_counterexample :
    snapshotName SnapKind.refinement "20260101T000000Z"
        = snapshotName SnapKind.refinement "20260101T000000Z"
    ∧ applyWrites []
        [(snapshotName SnapKind.refinement "20260101T000000Z", "first report"),
         (snapshotName SnapKind.refinement "20260101T000000Z", "second report")]
        = [(snapshotName SnapKind.refinement "20260101T000000Z", "second report")] := by
  exact ⟨rfl, by decide⟩

/-- Claim C8 (amended): every generation event writes
`report_<UTC timestamp>.txt` and every refinement event writes
`report_updated_<UTC timestamp>.txt` (as the handlers' `snapshotName`
shows); two persist events write distinct files whenever their kinds differ
or their timestamps differ.  Two same-kind events within the same UTC second
share a name and the later write overwrites the earlier snapshot. -/
theorem C8_snapshot_names_distinct (k1 k2 : SnapKind) (ts1 ts2 : String)
    (h1 : WfTimestamp ts1) (h2 : WfTimestamp ts2) (hne : k1 ≠ k2 ∨ ts1 ≠ ts2) :
    snapshotName k1 ts1 ≠ snapshotName k2 ts2 := by
  intro heq
  have hd := congrArg String.data heq
  cases k1 <;> cases k2
  case generation.generation =>
    rw [snapshotName, snapshotName, String.data_append, String.data_append,
      String.data_append, String.data_append] at hd
    have hts : ts1 = ts2 :=
      String.ext (List.append_cancel_left (List.append_cancel_right hd))
    rcases hne with hk | ht
    · exact hk rfl
    · exact ht hts
  case generation.refinement =>
    rw [snapshotName, snapshotName, String.data_append, String.data_append,
      String.data_append, String.data_append, List.append_assoc, List.append_assoc] at hd
    have hsplit : ("report_updated_".data : List Char)
        = "report_".data ++ "updated_".data := by decide
    rw [hsplit, List.append_assoc] at hd
    have hc := List.append_cancel_left hd
    obtain ⟨c, cs, hts, hdig⟩ := wfTimestamp_head_digit h1
    rw [hts] at hc
    have hu : ("updated_".data : List Char) = 'u' :: "pdated_".data := rfl
    rw [hu] at hc
    have hhead := congrArg List.head? hc
    simp only [List.cons_append, List.head?_cons, Option.some.injEq] at hhead
    subst hhead
    exact absurd hdig (by decide)
  case refinement.generation =>
    rw [snapshotName, snapshotName, String.data_append, String.data_append,
      String.data_append, String.data_append, List.append_assoc, List.append_assoc] at hd
    have hsplit : ("report_updated_".data : List Char)
        = "report_".data ++ "updated_".data := by decide
    rw [hsplit, List.append_assoc] at hd
    have hc := List.append_cancel_left hd
    obtain ⟨c, cs, hts, hdig⟩ := wfTimestamp_head_digit h2
    rw [hts] at hc
    have hu : ("updated_".data : List Char) = 'u' :: "pdated_".data := rfl
    rw [hu] at hc
    have hhead := congrArg List.head? hc.symm
    simp only [List.cons_append, List.head?_cons, Option.some.injEq] at hhead
    subst hhead
    exact absurd hdig (by decide)
  case refinement.refinement =>
    rw [snapshotName, snapshotName, String.data_append, String.data_append,
      String.data_append, String.data_append] at hd
    have hts : ts1 = ts2 :=
      String.ext (List.append_cancel_left (List.append_cancel_right hd))
    rcases hne with hk | ht
    · exact hk rfl
    · exact ht hts

/-- Witness for the amended C8: a generation and a refinement in the same
second still write distinct files. -/
theorem C8_witness :
    snapshotName SnapKind.generation "20260101T000000Z"
      ≠ snapshotName SnapKind.refinement "20260101T000000Z" :=
  C8_snapshot_names_distinct SnapKind.generation SnapKind.refinement
    "20260101T000000Z" "20260101T000000Z" (by decide) (by decide) (Or.inl (by decide))

/-- Claim C9: if the remote call raised during a refinement action, the
handler stops before any mutation or write: the session state is returned
unchanged and the write list is empty, so the snapshot directory is left
exactly as it was. -/
theorem C9_refine_raise_no_mutation (s : SessionState) (j : Nat) (e ts : String) :
    refineHandler s j (Except.error e) ts = (s, [])
    ∧ ∀ fs : StrMap, applyWrites fs (refineHandler s j (Except.error e) ts).2 = fs :=
  ⟨rfl, fun fs => rfl⟩

/-- Claim C10: after every completed generation action the session mapping
holds exactly the keys `section_1 .. section_N` (in ordinal order) where `N`
is the stored `total_sections`, and the stored full report is the blank-line
join of those `N` texts; and every refinement action on an in-range ordinal
preserves this invariant. -/
theorem C10_session_invariant :
    (∀ (t : String) (oracle : Nat → Except String String) (ts : String)
        (s : SessionState) (w : String × String) (n : Nat),
      generateHandlerR t oracle ts = (GenOutcome.completed s w, n) → SessionInv s)
    ∧ (∀ (s : SessionState) (j : Nat) (res : Except String String) (ts : String),
        SessionInv s → 1 ≤ j → j ≤ s.total_sections →
        SessionInv (refineHandler s j res ts).1) := by
  constructor
  · intro t oracle ts s w n h
    simp only [generateHandlerR] at h
    split at h
    · simp at h
    · rw [Prod.mk.injEq, GenOutcome.completed.injEq] at h
      obtain ⟨⟨hs, hw⟩, hn⟩ := h
      subst hs
      exact ⟨buildSections_keys _ oracle, rfl⟩
  · intro s j res ts hinv hj1 hjn
    cases res with
    | error e => exact hinv
    | ok revised =>
      refine ⟨?_, rfl⟩
      show (mapSet s.report_sections (sectionKey j) (pyStripNL revised)).map Prod.fst
        = (ordinals s.total_sections).map sectionKey
      rw [mapSet_keys_mem]
      · exact hinv.1
      · rw [hinv.1]
        exact List.mem_map.mpr ⟨j, mem_ordinals.mpr ⟨hj1, hjn⟩, rfl⟩

/-- Witness for C10: a concrete generation run and a subsequent refinement. -/
theorem C10_witness :
    SessionInv ⟨[(sectionKey 1, "X"), (sectionKey 2, "X")], 2, "X\n\nX"⟩
    ∧ SessionInv (refineHandler ⟨[(sectionKey 1, "X"), (sectionKey 2, "X")], 2, "X\n\nX"⟩
        1 (Except.ok "Y") "20260101T000001Z").1 := by
  constructor
  · exact C10_session_invariant.1 "SECTION one SECTION two" (fun k => Except.ok "X")
      "20260101T000000Z" ⟨[(sectionKey 1, "X"), (sectionKey 2, "X")], 2, "X\n\nX"⟩
      ("report_20260101T000000Z.txt", "X\n\nX") 2 (by decide)
  · exact C10_session_invariant.2 ⟨[(sectionKey 1, "X"), (sectionKey 2, "X")], 2, "X\n\nX"⟩
      1 (Except.ok "Y") "20260101T000001Z"
      (C10_session_invariant.1 "SECTION one SECTION two" (fun k => Except.ok "X")
        "20260101T000000Z" ⟨[(sectionKey 1, "X"), (sectionKey 2, "X")], 2, "X\n\nX"⟩
        ("report_20260101T000000Z.txt", "X\n\nX") 2 (by decide))
      (by decide) (by decide)

end GenTemplate
